import Mathlib

/-!
# curve_extraction: grid indexing and settings of `curve_segmentation.h`

A shallow embedding of `matlab/library/curve_segmentation.h`.

* The image size `M`, `N`, `O` is global mutable state in the source
  (`int M = 1; int N = 1; int O = 1;`); here it is passed explicitly to every
  function that reads it.
* C++ `int` is a signed 32-bit integer. `sub2ind32`, `sub2indPoint32`,
  `ind2sub32` and `make_point32` embed the source functions with every
  arithmetic operation wrapped around modulo `2^32`; `/` on `int` truncates
  toward zero (`Int.tdiv`), and a division by zero has no result (`none`).
  `sub2indChecked` / `ind2subChecked` evaluate the same expressions with every
  operation range-checked. `sub2ind` / `ind2sub` evaluate them over the
  unbounded integers and serve as the reference the 32-bit evaluation is
  compared with.
* `validind` only compares; its one arithmetic expression, `M-1`, stays in
  range for every `M` above the smallest `int`.
* `double` values are `Float` (IEEE binary64); they are only stored and
  returned, never computed with.
-/

namespace CurveSegmentation

/-! ## Grid indexing -/

/-- Modelled from the spec: `Mesh::Point` (declared in
`curve_extraction/grid_mesh.h`, which is not among the sources) is an integer
triple of grid coordinates with members `x`, `y`, `z`. -/
structure Point where
  x : Int
  y : Int
  z : Int
deriving DecidableEq, Repr

/-- Source `validind(int n1, int n2, int n3)`. -/
def validind (M N O : Int) (n1 n2 n3 : Int) : Bool :=
  if (decide (n1 > M - 1) || decide (n2 > N - 1) || decide (n3 > O - 1))
      || (decide (n1 < 0) || decide (n2 < 0) || decide (n3 < 0)) then
    false
  else
    true

/-- Source `validind(Mesh::Point p)`. -/
def validindPoint (M N O : Int) (p : Point) : Bool :=
  validind M N O p.x p.y p.z

/-- Reference evaluation over the unbounded integers of the expression of
source `sub2ind(int n1, int n2, int n3)`, `n1 + n2*M + n3*M*N` (C++ parses the
last product as `(n3*M)*N`). The source itself, on `int`, is `sub2ind32`. -/
def sub2ind (M N : Int) (n1 n2 n3 : Int) : Int :=
  n1 + n2 * M + n3 * M * N

/-- Reference evaluation over the unbounded integers of the statements of
source `ind2sub(int n)`; the divisions truncate, and there is no result when a
divisor is zero. The source itself, on `int`, is `ind2sub32`. -/
def ind2sub (M N : Int) (n : Int) : Option (Int × Int × Int) :=
  if M * N = 0 then none
  else
    let z := Int.tdiv n (M * N)
    if M = 0 then none
    else
      let y := Int.tdiv (n - z * M * N) M
      let x := n - y * M - z * M * N
      some (x, y, z)

/-! ## Grid indexing on 32-bit `int` -/

/-- Value of an integer after wrap-around to the signed 32-bit range
`[-2^31, 2^31 - 1]`. -/
def wrap32 (a : Int) : Int :=
  (a + 2147483648) % 4294967296 - 2147483648

/-- Source `sub2ind(int n1, int n2, int n3)`: the expression
`(n1 + (n2*M)) + ((n3*M)*N)`, with every multiplication and addition wrapped to
32 bits. -/
def sub2ind32 (M N : Int) (n1 n2 n3 : Int) : Int :=
  wrap32 (wrap32 (n1 + wrap32 (n2 * M)) + wrap32 (wrap32 (n3 * M) * N))

/-- Source `sub2ind(Mesh::Point p)`. -/
def sub2indPoint32 (M N : Int) (p : Point) : Int :=
  sub2ind32 M N p.x p.y p.z

/-- Source `ind2sub(int n)`: its three statements with every operation wrapped
to 32 bits; the divisions truncate, and there is no result when a divisor is
zero. -/
def ind2sub32 (M N : Int) (n : Int) : Option (Int × Int × Int) :=
  let mn := wrap32 (M * N)
  if mn = 0 then none
  else
    let z := wrap32 (Int.tdiv n mn)
    if M = 0 then none
    else
      let y := wrap32 (Int.tdiv (wrap32 (n - wrap32 (wrap32 (z * M) * N))) M)
      let x := wrap32 (wrap32 (n - wrap32 (y * M)) - wrap32 (wrap32 (z * M) * N))
      some (x, y, z)

/-- Source `make_point(int n)`: the same three statements as `ind2sub`, the
result packed in a `Mesh::Point`. -/
def make_point32 (M N : Int) (n : Int) : Option Point :=
  let mn := wrap32 (M * N)
  if mn = 0 then none
  else
    let z := wrap32 (Int.tdiv n mn)
    if M = 0 then none
    else
      let y := wrap32 (Int.tdiv (wrap32 (n - wrap32 (wrap32 (z * M) * N))) M)
      let x := wrap32 (wrap32 (n - wrap32 (y * M)) - wrap32 (wrap32 (z * M) * N))
      some ⟨x, y, z⟩

/-- A value that fits a signed 32-bit `int`; `none` when it does not. -/
def checked32 (a : Int) : Option Int :=
  if -2147483648 ≤ a ∧ a ≤ 2147483647 then some a else none

/-- The expression of `sub2ind` evaluated step by step; `none` as soon as one
intermediate value leaves the signed 32-bit range. -/
def sub2indChecked (M N : Int) (n1 n2 n3 : Int) : Option Int := do
  let n2M ← checked32 (n2 * M)
  let s ← checked32 (n1 + n2M)
  let n3M ← checked32 (n3 * M)
  let n3MN ← checked32 (n3M * N)
  checked32 (s + n3MN)

/-- The statements of `ind2sub` evaluated step by step; `none` as soon as one
intermediate value leaves the signed 32-bit range or a divisor is zero. -/
def ind2subChecked (M N : Int) (n : Int) : Option (Int × Int × Int) := do
  let mn ← checked32 (M * N)
  if mn = 0 then none
  else
    let z ← checked32 (Int.tdiv n mn)
    let zM ← checked32 (z * M)
    let zMN ← checked32 (zM * N)
    let r ← checked32 (n - zMN)
    if M = 0 then none
    else
      let y ← checked32 (Int.tdiv r M)
      let yM ← checked32 (y * M)
      let t ← checked32 (n - yM)
      let x ← checked32 (t - zMN)
      some (x, y, z)

/-! ## Settings -/

/-- Source `enum Descent_method {lbfgs, nelder_mead}`. -/
inductive Descent_method where
  | lbfgs
  | nelder_mead
deriving DecidableEq, Repr

/-- Source `struct InstanceSettings` (`vector<double>` is an array of floats). -/
structure InstanceSettings where
  length_penalty : Float
  curvature_penalty : Float
  torsion_penalty : Float
  curvature_power : Float
  torsion_power : Float
  regularization_radius : Float
  use_a_star : Bool
  verbose : Bool
  store_visit_time : Bool
  store_parents : Bool
  store_distances : Bool
  compute_all_distances : Bool
  data_type_str : String
  voxel_dimensions : Array Float
  function_improvement_tolerance : Float
  argument_improvement_tolerance : Float
  num_threads : Int
  maxiter : Int
  descent_method : Descent_method
  descent_method_str : String

/-- Modelled from the spec: `MexParams` (declared in `mexutils.h`, which is not
among the sources) is the parameter set handed over by the host environment.
Every option that `parse_settings` reads is either supplied with a value of the
type it is read at (`some v`) or not supplied (`none`). -/
structure MexParams where
  verbose : Option Bool := none
  regularization_radius : Option Float := none
  length_penalty : Option Float := none
  curvature_penalty : Option Float := none
  torsion_penalty : Option Float := none
  curvature_power : Option Float := none
  torsion_power : Option Float := none
  use_a_star : Option Bool := none
  store_visit_time : Option Bool := none
  store_parents : Option Bool := none
  store_distances : Option Bool := none
  compute_all_distances : Option Bool := none
  function_improvement_tolerance : Option Float := none
  argument_improvement_tolerance : Option Float := none
  num_threads : Option Int := none
  maxiter : Option Int := none
  descent_method : Option String := none
  data_type : Option String := none
  voxel_dimensions : Option (Array Float) := none

/-- Modelled from the spec: `params.get<T>(name, default_value)` of `mexutils.h`
gives the supplied value of the option, and `default_value` when the option is
not supplied. -/
def MexParams.get {T : Type} (supplied : Option T) (default_value : T) : T :=
  match supplied with
  | some v => v
  | none => default_value

/-- Modelled from the spec: `params.get< vector<double> >(name)` of `mexutils.h`,
called without a default, gives the supplied sequence, and an empty vector when
the option is not supplied. -/
def MexParams.getVector (supplied : Option (Array Float)) : Array Float :=
  match supplied with
  | some v => v
  | none => #[]

/-- Source `parse_settings(MexParams params)`; `throw runtime_error(msg)` is
`Except.error msg`. -/
def parse_settings (params : MexParams) : Except String InstanceSettings := do
  let verbose := MexParams.get params.verbose false
  let regularization_radius := MexParams.get params.regularization_radius 4.0
  let length_penalty := MexParams.get params.length_penalty 0.0
  let curvature_penalty := MexParams.get params.curvature_penalty 0.0
  let torsion_penalty := MexParams.get params.torsion_penalty 0.0
  let curvature_power := MexParams.get params.curvature_power 2.0
  let torsion_power := MexParams.get params.torsion_power 2.0
  let use_a_star := MexParams.get params.use_a_star false
  let store_visit_time := MexParams.get params.store_visit_time false
  let store_parents := MexParams.get params.store_parents false
  let store_distances := MexParams.get params.store_distances false
  let compute_all_distances := MexParams.get params.compute_all_distances false
  let function_improvement_tolerance :=
    MexParams.get params.function_improvement_tolerance 1e-12
  let argument_improvement_tolerance :=
    MexParams.get params.argument_improvement_tolerance 1e-12
  let num_threads := MexParams.get params.num_threads (-1)
  let maxiter := MexParams.get params.maxiter 1000
  let descent_method_str := MexParams.get params.descent_method "lbfgs"
  let descent_method ←
    if descent_method_str = "lbfgs" then
      pure Descent_method.lbfgs
    else if descent_method_str = "nelder-mead" then
      pure Descent_method.nelder_mead
    else
      throw "Unknown descent_method"
  let data_type_str := MexParams.get params.data_type "linear_interpolation"
  let voxel_dimensions := MexParams.getVector params.voxel_dimensions
  let voxel_dimensions :=
    if voxel_dimensions.isEmpty then
      ((voxel_dimensions.push 1.0).push 1.0).push 1.0
    else
      voxel_dimensions
  return {
    length_penalty, curvature_penalty, torsion_penalty, curvature_power, torsion_power,
    regularization_radius, use_a_star, verbose, store_visit_time, store_parents,
    store_distances, compute_all_distances, data_type_str, voxel_dimensions,
    function_improvement_tolerance, argument_improvement_tolerance, num_threads, maxiter,
    descent_method, descent_method_str }

/-! ## Helper lemmas on the grid arithmetic -/

theorem validind_iff (M N O n1 n2 n3 : Int) :
    validind M N O n1 n2 n3 = true ↔
      (0 ≤ n1 ∧ n1 < M) ∧ (0 ≤ n2 ∧ n2 < N) ∧ (0 ≤ n3 ∧ n3 < O) := by
  unfold validind
  simp only [Bool.or_eq_true, decide_eq_true_eq]
  split
  · rename_i h
    constructor
    · intro hf
      cases hf
    · intro hv
      omega
  · rename_i h
    constructor
    · intro _
      omega
    · intro _
      rfl

/-- The row part `x + y*M` of a valid point lies below `M*N`. -/
theorem row_lt {M N x y : Int} (hx0 : 0 ≤ x) (hx : x < M) (hy0 : 0 ≤ y) (hy : y < N) :
    0 ≤ x + y * M ∧ x + y * M < M * N := by
  have hM : 0 < M := by omega
  have h1 : 0 ≤ y * M := Int.mul_nonneg hy0 (by omega)
  have h2 : (y + 1) * M ≤ N * M := Int.mul_le_mul_of_nonneg_right (by omega) (by omega)
  constructor
  · omega
  · have h3 : (y + 1) * M = y * M + M := by ring
    have h4 : N * M = M * N := by ring
    omega

/-- Truncating division of a non-negative number written as `r + q*b`. -/
theorem tdiv_add_mul {b q r : Int} (hb : 0 < b) (hr0 : 0 ≤ r) (hr : r < b) (hq : 0 ≤ q) :
    Int.tdiv (r + q * b) b = q := by
  have hqb : 0 ≤ q * b := Int.mul_nonneg hq (by omega)
  have hn : 0 ≤ r + q * b := by omega
  rw [Int.tdiv_eq_ediv hn (by omega)]
  have h := (@Int.ediv_emod_unique (r + q * b) b r q hb).2 ⟨by ring, hr0, hr⟩
  exact h.1

/-- Quotient and remainder of the truncating division by a positive number:
the remainder has the sign of the dividend. -/
theorem tdiv_spec (n : Int) {b : Int} (hb : 0 < b) :
    (0 ≤ n → 0 ≤ Int.tdiv n b ∧ 0 ≤ n - Int.tdiv n b * b ∧ n - Int.tdiv n b * b < b) ∧
    (n < 0 → Int.tdiv n b ≤ 0 ∧ -b < n - Int.tdiv n b * b ∧ n - Int.tdiv n b * b ≤ 0) := by
  have key : ∀ a : Int, 0 ≤ a →
      0 ≤ Int.tdiv a b ∧ 0 ≤ a - Int.tdiv a b * b ∧ a - Int.tdiv a b * b < b := by
    intro a ha
    have h1 : 0 ≤ Int.tdiv a b := Int.tdiv_nonneg ha (by omega)
    have h2 := Int.tmod_add_tdiv' a b
    have h3 : 0 ≤ Int.tmod a b := Int.tmod_nonneg b ha
    have h4 : Int.tmod a b < b := Int.tmod_lt_of_pos a hb
    omega
  constructor
  · intro hn
    exact key n hn
  · intro hn
    have h := key (-n) (by omega)
    have e : Int.tdiv n b = -Int.tdiv (-n) b := by
      rw [Int.neg_tdiv]
      omega
    rw [e]
    have e2 : -Int.tdiv (-n) b * b = -(Int.tdiv (-n) b * b) := by ring
    rw [e2]
    omega

theorem ind2sub_eq {M N : Int} (hM : 0 < M) (hN : 0 < N) (n : Int) :
    ind2sub M N n =
      some (n - Int.tdiv (n - Int.tdiv n (M * N) * M * N) M * M - Int.tdiv n (M * N) * M * N,
        Int.tdiv (n - Int.tdiv n (M * N) * M * N) M, Int.tdiv n (M * N)) := by
  have hMN : M * N ≠ 0 := Int.ne_of_gt (Int.mul_pos hM hN)
  have hM0 : M ≠ 0 := Int.ne_of_gt hM
  unfold ind2sub
  rw [if_neg hMN, if_neg hM0]

/-- Bounds of the linear index of a valid point. -/
theorem sub2ind_range {M N O x y z : Int} (hv : validind M N O x y z = true) :
    0 ≤ sub2ind M N x y z ∧ sub2ind M N x y z < M * N * O := by
  obtain ⟨⟨hx0, hx⟩, ⟨hy0, hy⟩, ⟨hz0, hz⟩⟩ := (validind_iff M N O x y z).1 hv
  obtain ⟨hr0, hr⟩ := row_lt hx0 hx hy0 hy
  have hMN : 0 ≤ M * N := by omega
  have h1 : 0 ≤ z * (M * N) := Int.mul_nonneg hz0 hMN
  have h2 : (z + 1) * (M * N) ≤ O * (M * N) :=
    Int.mul_le_mul_of_nonneg_right (by omega) hMN
  have e1 : sub2ind M N x y z = x + y * M + z * (M * N) := by
    unfold sub2ind
    ring
  have e2 : (z + 1) * (M * N) = z * (M * N) + M * N := by ring
  have e3 : O * (M * N) = M * N * O := by ring
  rw [e1]
  constructor
  · omega
  · omega

/-- Decoding the linear index of a valid point gives the point back. -/
theorem decode_encode_valid {M N O x y z : Int} (hv : validind M N O x y z = true) :
    ind2sub M N (sub2ind M N x y z) = some (x, y, z) := by
  obtain ⟨⟨hx0, hx⟩, ⟨hy0, hy⟩, ⟨hz0, _⟩⟩ := (validind_iff M N O x y z).1 hv
  obtain ⟨hr0, hr⟩ := row_lt hx0 hx hy0 hy
  have hM : 0 < M := by omega
  have hN : 0 < N := by omega
  have ez : Int.tdiv (sub2ind M N x y z) (M * N) = z := by
    have e1 : sub2ind M N x y z = (x + y * M) + z * (M * N) := by
      unfold sub2ind
      ring
    rw [e1]
    exact tdiv_add_mul (by omega) hr0 hr hz0
  have ey : Int.tdiv (sub2ind M N x y z - z * M * N) M = y := by
    have e1 : sub2ind M N x y z - z * M * N = x + y * M := by
      unfold sub2ind
      ring
    rw [e1]
    exact tdiv_add_mul hM hx0 hx hy0
  rw [ind2sub_eq hM hN, ez, ey]
  have ex : sub2ind M N x y z - y * M - z * M * N = x := by
    unfold sub2ind
    ring
  rw [ex]

/-- The triple computed from `n` is a valid point exactly for `n` in `[0, M*N*O)`. -/
theorem triple_valid_iff {M N : Int} (O : Int) (hM : 0 < M) (hN : 0 < N) (n : Int) :
    validind M N O
        (n - Int.tdiv (n - Int.tdiv n (M * N) * M * N) M * M - Int.tdiv n (M * N) * M * N)
        (Int.tdiv (n - Int.tdiv n (M * N) * M * N) M) (Int.tdiv n (M * N)) = true ↔
      0 ≤ n ∧ n < M * N * O := by
  have hb : 0 < M * N := Int.mul_pos hM hN
  have ea : Int.tdiv n (M * N) * M * N = Int.tdiv n (M * N) * (M * N) := by ring
  rw [validind_iff, ea]
  obtain ⟨hpos, hneg⟩ := tdiv_spec n hb
  generalize Int.tdiv n (M * N) = z at *
  generalize hr : n - z * (M * N) = r at *
  obtain ⟨ypos, yneg⟩ := tdiv_spec r hM
  have ex : n - Int.tdiv r M * M - z * (M * N) = r - Int.tdiv r M * M := by omega
  rw [ex]
  generalize Int.tdiv r M = y at *
  have e3 : M * N * O = O * (M * N) := by ring
  rw [e3]
  by_cases hn : 0 ≤ n
  · obtain ⟨hz0, hr0, hrb⟩ := hpos hn
    obtain ⟨hy0, hx0, hxM⟩ := ypos hr0
    have hyN : y < N := by
      by_contra hc
      have h1 : N * M ≤ y * M := Int.mul_le_mul_of_nonneg_right (by omega) (by omega)
      have h2 : N * M = M * N := by ring
      omega
    constructor
    · rintro ⟨_, _, _, hzO⟩
      have h1 : (z + 1) * (M * N) ≤ O * (M * N) :=
        Int.mul_le_mul_of_nonneg_right (by omega) (by omega)
      have h2 : (z + 1) * (M * N) = z * (M * N) + M * N := by ring
      constructor
      · exact hn
      · omega
    · rintro ⟨_, hlt⟩
      refine ⟨⟨hx0, hxM⟩, ⟨hy0, hyN⟩, hz0, ?_⟩
      by_contra hc
      have h1 : O * (M * N) ≤ z * (M * N) :=
        Int.mul_le_mul_of_nonneg_right (by omega) (by omega)
      omega
  · obtain ⟨hz0, hr0, hrb⟩ := hneg (by omega)
    constructor
    · rintro ⟨⟨hx0, _⟩, ⟨hy0, _⟩, hz1, _⟩
      exfalso
      have hz : z = 0 := by omega
      subst hz
      have hrn : r = n := by omega
      obtain ⟨hy1, hx1, hx2⟩ := yneg (by omega)
      have hy : y = 0 := by omega
      subst hy
      omega
    · rintro ⟨h0, _⟩
      exact absurd h0 hn

/-- Comparing two numbers written in base `B` with digits `r1`, `r2` in `[0, B)`. -/
theorem digit_lt_iff {B k1 k2 r1 r2 : Int} (h10 : 0 ≤ r1) (h1 : r1 < B)
    (h20 : 0 ≤ r2) (h2 : r2 < B) :
    r1 + k1 * B < r2 + k2 * B ↔ k1 < k2 ∨ (k1 = k2 ∧ r1 < r2) := by
  have hB : 0 ≤ B := by omega
  rcases Int.lt_trichotomy k1 k2 with hlt | heq | hgt
  · have h : (k1 + 1) * B ≤ k2 * B := Int.mul_le_mul_of_nonneg_right (by omega) hB
    have e : (k1 + 1) * B = k1 * B + B := by ring
    constructor
    · intro _
      exact Or.inl hlt
    · intro _
      omega
  · subst heq
    constructor
    · intro h
      exact Or.inr ⟨rfl, by omega⟩
    · rintro (h | ⟨_, h⟩)
      · omega
      · omega
  · have h : (k2 + 1) * B ≤ k1 * B := Int.mul_le_mul_of_nonneg_right (by omega) hB
    have e : (k2 + 1) * B = k2 * B + B := by ring
    constructor
    · intro hc
      omega
    · rintro (h | ⟨h, _⟩)
      · omega
      · omega

theorem digit_eq_iff {B k1 k2 r1 r2 : Int} (h10 : 0 ≤ r1) (h1 : r1 < B)
    (h20 : 0 ≤ r2) (h2 : r2 < B) :
    r1 + k1 * B = r2 + k2 * B ↔ k1 = k2 ∧ r1 = r2 := by
  constructor
  · intro h
    have ha := (@digit_lt_iff B k1 k2 r1 r2 h10 h1 h20 h2).not
    have hb := (@digit_lt_iff B k2 k1 r2 r1 h20 h2 h10 h1).not
    have ha1 := ha.1 (by omega)
    have hb1 := hb.1 (by omega)
    have hk : k1 = k2 := by
      by_contra hne
      rcases Int.lt_or_gt_of_ne hne with hl | hg
      · exact ha1 (Or.inl hl)
      · exact hb1 (Or.inl hg)
    subst hk
    exact ⟨rfl, by omega⟩
  · rintro ⟨rfl, rfl⟩
    rfl

/-! ## Helper lemmas on the 32-bit range -/

theorem wrap32_eq {a : Int} (h0 : 0 ≤ a) (h1 : a ≤ 2147483647) : wrap32 a = a := by
  unfold wrap32
  omega

theorem checked32_eq {a : Int} (h0 : 0 ≤ a) (h1 : a ≤ 2147483647) : checked32 a = some a := by
  unfold checked32
  rw [if_pos ⟨by omega, h1⟩]

/-- Sizes of the intermediate values of `sub2ind` on a valid point. -/
theorem sub2ind_steps {M N O x y z : Int} (hv : validind M N O x y z = true) :
    (0 ≤ y * M ∧ y * M < M * N * O) ∧ (0 ≤ x + y * M ∧ x + y * M < M * N * O) ∧
    (0 ≤ z * M ∧ z * M < M * N * O) ∧ (0 ≤ z * M * N ∧ z * M * N < M * N * O) ∧
    (0 ≤ x + y * M + z * M * N ∧ x + y * M + z * M * N < M * N * O) := by
  obtain ⟨hs0, hs⟩ := sub2ind_range hv
  obtain ⟨⟨hx0, hx⟩, ⟨hy0, hy⟩, ⟨hz0, hz⟩⟩ := (validind_iff M N O x y z).1 hv
  have hyM : 0 ≤ y * M := Int.mul_nonneg hy0 (by omega)
  have hzM : 0 ≤ z * M := Int.mul_nonneg hz0 (by omega)
  have hzMN : z * M * 1 ≤ z * M * N := Int.mul_le_mul_of_nonneg_left (by omega) hzM
  have e : z * M * 1 = z * M := by ring
  unfold sub2ind at hs0 hs
  omega

/-- Sizes of the intermediate values of `ind2sub` on an index `0 ≤ n`. -/
theorem ind2sub_steps {M N : Int} (hM : 0 < M) (hN : 0 < N) {n : Int} (h0 : 0 ≤ n) :
    (0 ≤ Int.tdiv n (M * N) ∧ Int.tdiv n (M * N) ≤ n) ∧
    (0 ≤ Int.tdiv n (M * N) * M ∧ Int.tdiv n (M * N) * M ≤ n) ∧
    (0 ≤ Int.tdiv n (M * N) * M * N ∧ Int.tdiv n (M * N) * M * N ≤ n) ∧
    (0 ≤ Int.tdiv (n - Int.tdiv n (M * N) * M * N) M ∧
      Int.tdiv (n - Int.tdiv n (M * N) * M * N) M ≤ n) ∧
    (0 ≤ Int.tdiv (n - Int.tdiv n (M * N) * M * N) M * M ∧
      Int.tdiv (n - Int.tdiv n (M * N) * M * N) M * M ≤ n - Int.tdiv n (M * N) * M * N) := by
  have hb : 0 < M * N := Int.mul_pos hM hN
  have ea : Int.tdiv n (M * N) * M * N = Int.tdiv n (M * N) * (M * N) := by ring
  rw [ea]
  obtain ⟨hz0, hr0, _⟩ := (tdiv_spec n hb).1 h0
  generalize Int.tdiv n (M * N) = z at *
  have hzM : 0 ≤ z * M := Int.mul_nonneg hz0 (by omega)
  have hzM1 : z * 1 ≤ z * M := Int.mul_le_mul_of_nonneg_left (by omega) hz0
  have hzMN : z * M * 1 ≤ z * M * N := Int.mul_le_mul_of_nonneg_left (by omega) hzM
  have e1 : z * M * N = z * (M * N) := by ring
  obtain ⟨hy0, hx0, _⟩ := (tdiv_spec (n - z * (M * N)) hM).1 hr0
  generalize Int.tdiv (n - z * (M * N)) M = y at *
  have hyM1 : y * 1 ≤ y * M := Int.mul_le_mul_of_nonneg_left (by omega) hy0
  have hyM : 0 ≤ y * M := Int.mul_nonneg hy0 (by omega)
  omega

theorem wrap32_eq_range {a : Int} (h0 : -2147483648 ≤ a) (h1 : a ≤ 2147483647) :
    wrap32 a = a := by
  unfold wrap32
  omega

/-- The truncated quotient `q` by `b ≥ 1` and the product `q*b` lie between the
dividend and zero. -/
theorem tdiv_bounds (n : Int) {b : Int} (hb : 0 < b) :
    (0 ≤ n → 0 ≤ Int.tdiv n b ∧ Int.tdiv n b ≤ Int.tdiv n b * b ∧ Int.tdiv n b * b ≤ n) ∧
    (n < 0 → n ≤ Int.tdiv n b * b ∧ Int.tdiv n b * b ≤ Int.tdiv n b ∧ Int.tdiv n b ≤ 0) := by
  obtain ⟨hpos, hneg⟩ := tdiv_spec n hb
  generalize Int.tdiv n b = q at *
  constructor
  · intro hn
    obtain ⟨hq, hr0, _⟩ := hpos hn
    have h1 : q * 1 ≤ q * b := Int.mul_le_mul_of_nonneg_left (by omega) hq
    omega
  · intro hn
    obtain ⟨hq, _, hr0⟩ := hneg hn
    have h1 : -q * 1 ≤ -q * b := Int.mul_le_mul_of_nonneg_left (by omega) (by omega)
    have e : -q * b = -(q * b) := by ring
    omega

/-- Sizes of the intermediate values of `ind2sub` on an index `n < 0`: all of
them lie between `n` and zero. -/
theorem ind2sub_steps_neg {M N : Int} (hM : 0 < M) (hN : 0 < N) {n : Int} (hn : n < 0) :
    (n ≤ Int.tdiv n (M * N) ∧ Int.tdiv n (M * N) ≤ 0) ∧
    (n ≤ Int.tdiv n (M * N) * M ∧ Int.tdiv n (M * N) * M ≤ 0) ∧
    (n ≤ Int.tdiv n (M * N) * M * N ∧ Int.tdiv n (M * N) * M * N ≤ 0) ∧
    (n ≤ n - Int.tdiv n (M * N) * M * N ∧ n - Int.tdiv n (M * N) * M * N ≤ 0) ∧
    (n ≤ Int.tdiv (n - Int.tdiv n (M * N) * M * N) M ∧
      Int.tdiv (n - Int.tdiv n (M * N) * M * N) M ≤ 0) ∧
    (n ≤ Int.tdiv (n - Int.tdiv n (M * N) * M * N) M * M ∧
      Int.tdiv (n - Int.tdiv n (M * N) * M * N) M * M ≤ 0) ∧
    (n ≤ n - Int.tdiv (n - Int.tdiv n (M * N) * M * N) M * M ∧
      n - Int.tdiv (n - Int.tdiv n (M * N) * M * N) M * M ≤ 0) ∧
    (n ≤ n - Int.tdiv (n - Int.tdiv n (M * N) * M * N) M * M
        - Int.tdiv n (M * N) * M * N ∧
      n - Int.tdiv (n - Int.tdiv n (M * N) * M * N) M * M
        - Int.tdiv n (M * N) * M * N ≤ 0) := by
  have hb : 0 < M * N := Int.mul_pos hM hN
  obtain ⟨hz1, hz2, hz3⟩ := (tdiv_bounds n hb).2 hn
  obtain ⟨_, _, hr0⟩ := (tdiv_spec n hb).2 hn
  have ea : Int.tdiv n (M * N) * M * N = Int.tdiv n (M * N) * (M * N) := by ring
  rw [ea]
  generalize Int.tdiv n (M * N) = z at *
  have hzM : 0 ≤ -z * M := Int.mul_nonneg (by omega) (by omega)
  have e1 : -z * M = -(z * M) := by ring
  have hzMN : -z * M * 1 ≤ -z * M * N := Int.mul_le_mul_of_nonneg_left (by omega) hzM
  have e2 : -z * M * N = -(z * (M * N)) := by ring
  obtain ⟨ypos, yneg⟩ := tdiv_bounds (n - z * (M * N)) hM
  generalize Int.tdiv (n - z * (M * N)) M = y at *
  by_cases hr : 0 ≤ n - z * (M * N)
  · obtain ⟨hy1, hy2, hy3⟩ := ypos hr
    omega
  · obtain ⟨hy1, hy2, hy3⟩ := yneg (by omega)
    omega

/-- Inside the 32-bit range the wrapped `sub2ind` is the reference one. -/
theorem sub2ind32_eq_of_bound {M N O x y z : Int} (hsize : M * N * O ≤ 2147483647)
    (hv : validind M N O x y z = true) : sub2ind32 M N x y z = sub2ind M N x y z := by
  obtain ⟨⟨a0, a1⟩, ⟨b0, b1⟩, ⟨c0, c1⟩, ⟨d0, d1⟩, ⟨e0, e1⟩⟩ := sub2ind_steps hv
  simp only [sub2ind32, sub2ind, wrap32_eq a0 (by omega), wrap32_eq b0 (by omega),
    wrap32_eq c0 (by omega), wrap32_eq d0 (by omega), wrap32_eq e0 (by omega)]

/-- Inside the 32-bit range the wrapped `ind2sub` is the reference one, on
every `int` index. -/
theorem ind2sub32_eq_of_bound {M N : Int} (hM : 0 < M) (hN : 0 < N)
    (hMN : M * N ≤ 2147483647) {n : Int} (hlo : -2147483648 ≤ n) (hhi : n ≤ 2147483647) :
    ind2sub32 M N n = ind2sub M N n := by
  have hb : 0 < M * N := Int.mul_pos hM hN
  have hne : M * N ≠ 0 := Int.ne_of_gt hb
  have hMne : M ≠ 0 := Int.ne_of_gt hM
  have wMN : wrap32 (M * N) = M * N := wrap32_eq (by omega) hMN
  rw [ind2sub_eq hM hN]
  by_cases h0 : 0 ≤ n
  · obtain ⟨⟨z0, z1⟩, ⟨a0, a1⟩, ⟨b0, b1⟩, ⟨y0, y1⟩, ⟨c0, c1⟩⟩ := ind2sub_steps hM hN h0
    have r0 : 0 ≤ n - Int.tdiv n (M * N) * M * N := by omega
    have t0 : 0 ≤ n - Int.tdiv (n - Int.tdiv n (M * N) * M * N) M * M := by omega
    have x0 : 0 ≤ n - Int.tdiv (n - Int.tdiv n (M * N) * M * N) M * M
        - Int.tdiv n (M * N) * M * N := by omega
    simp only [ind2sub32, wMN, if_neg hne, if_neg hMne,
      wrap32_eq z0 (by omega), wrap32_eq a0 (by omega), wrap32_eq b0 (by omega),
      wrap32_eq r0 (by omega), wrap32_eq y0 (by omega), wrap32_eq c0 (by omega),
      wrap32_eq t0 (by omega), wrap32_eq x0 (by omega)]
  · obtain ⟨⟨z0, z1⟩, ⟨a0, a1⟩, ⟨b0, b1⟩, ⟨r0, r1⟩, ⟨y0, y1⟩, ⟨c0, c1⟩, ⟨t0, t1⟩, ⟨x0, x1⟩⟩ :=
      ind2sub_steps_neg hM hN (Int.lt_of_not_ge h0)
    simp only [ind2sub32, wMN, if_neg hne, if_neg hMne,
      wrap32_eq_range (Int.le_trans hlo z0) (by omega),
      wrap32_eq_range (Int.le_trans hlo a0) (by omega),
      wrap32_eq_range (Int.le_trans hlo b0) (by omega),
      wrap32_eq_range (Int.le_trans hlo r0) (by omega),
      wrap32_eq_range (Int.le_trans hlo y0) (by omega),
      wrap32_eq_range (Int.le_trans hlo c0) (by omega),
      wrap32_eq_range (Int.le_trans hlo t0) (by omega),
      wrap32_eq_range (Int.le_trans hlo x0) (by omega)]

/-- The point of `make_point` has the coordinates of the triple of `ind2sub`. -/
theorem make_point32_eq (M N n : Int) :
    make_point32 M N n = (ind2sub32 M N n).map (fun t => ⟨t.1, t.2.1, t.2.2⟩) := by
  unfold make_point32 ind2sub32
  by_cases h1 : wrap32 (M * N) = 0
  · simp only [if_pos h1, Option.map_none']
  · by_cases h2 : M = 0
    · simp only [if_neg h1, if_pos h2, Option.map_none']
    · simp only [if_neg h1, if_neg h2, Option.map_some']

/-- The product `M*N` is at most `M*N*O` on a grid of positive size. -/
theorem plane_le_volume {M N O : Int} (hM : 1 ≤ M) (hN : 1 ≤ N) (hO : 1 ≤ O) :
    0 < M * N ∧ M * N ≤ M * N * O := by
  have hb : 0 < M * N := Int.mul_pos (by omega) (by omega)
  have h : M * N * 1 ≤ M * N * O := Int.mul_le_mul_of_nonneg_left hO (by omega)
  have e : M * N * 1 = M * N := by ring
  omega

/-! ## Helper lemmas on `parse_settings` -/

/-- The descent method string that `parse_settings` compares. -/
theorem get_descent_method (params : MexParams) :
    MexParams.get params.descent_method "lbfgs" = "lbfgs" ∨
    MexParams.get params.descent_method "lbfgs" = "nelder-mead" ∨
    ∃ s, params.descent_method = some s ∧ s ≠ "lbfgs" ∧ s ≠ "nelder-mead" := by
  cases h : params.descent_method with
  | none => exact Or.inl rfl
  | some s =>
    by_cases h1 : s = "lbfgs"
    · exact Or.inl h1
    · by_cases h2 : s = "nelder-mead"
      · exact Or.inr (Or.inl h2)
      · exact Or.inr (Or.inr ⟨s, rfl, h1, h2⟩)

/-- Outcome of `parse_settings` when the descent method string is `"lbfgs"`. -/
theorem parse_settings_lbfgs (params : MexParams)
    (h : MexParams.get params.descent_method "lbfgs" = "lbfgs") :
    ∃ st, parse_settings params = Except.ok st ∧ st.descent_method = Descent_method.lbfgs ∧
      st.voxel_dimensions =
        if (MexParams.getVector params.voxel_dimensions).isEmpty then #[1.0, 1.0, 1.0]
        else MexParams.getVector params.voxel_dimensions := by
  unfold parse_settings
  simp only [h]
  refine ⟨_, rfl, rfl, ?_⟩
  show (if _ then _ else _) = _
  split
  · rename_i he
    rw [Array.isEmpty, decide_eq_true_eq] at he
    rw [Array.eq_empty_of_size_eq_zero he]
    rfl
  · rfl

/-- Outcome of `parse_settings` when the descent method string is
`"nelder-mead"`. -/
theorem parse_settings_nelder_mead (params : MexParams)
    (h : MexParams.get params.descent_method "lbfgs" = "nelder-mead") :
    ∃ st, parse_settings params = Except.ok st ∧
      st.descent_method = Descent_method.nelder_mead ∧
      st.voxel_dimensions =
        if (MexParams.getVector params.voxel_dimensions).isEmpty then #[1.0, 1.0, 1.0]
        else MexParams.getVector params.voxel_dimensions := by
  unfold parse_settings
  simp only [h]
  refine ⟨_, rfl, rfl, ?_⟩
  show (if _ then _ else _) = _
  split
  · rename_i he
    rw [Array.isEmpty, decide_eq_true_eq] at he
    rw [Array.eq_empty_of_size_eq_zero he]
    rfl
  · rfl

/-- Outcome of `parse_settings` on any other descent method string. -/
theorem parse_settings_unknown (params : MexParams)
    (h1 : MexParams.get params.descent_method "lbfgs" ≠ "lbfgs")
    (h2 : MexParams.get params.descent_method "lbfgs" ≠ "nelder-mead") :
    parse_settings params = Except.error "Unknown descent_method" := by
  unfold parse_settings
  simp only [if_neg h1, if_neg h2]
  rfl

/-! ## Grid indexing: the properties -/

/-- C3: `validind(n1,n2,n3)` is true exactly when `0 ≤ n1 < M`, `0 ≤ n2 < N` and
`0 ≤ n3 < O`, so it is false as soon as one coordinate is out of range; the
`Point` overload gives the value of `validind(p.x,p.y,p.z)`. -/
theorem validind_spec (M N O n1 n2 n3 : Int) (p : Point) :
    (validind M N O n1 n2 n3 = true ↔
      (0 ≤ n1 ∧ n1 < M) ∧ (0 ≤ n2 ∧ n2 < N) ∧ (0 ≤ n3 ∧ n3 < O)) ∧
    (validind M N O n1 n2 n3 = false ↔
      (n1 < 0 ∨ M ≤ n1) ∨ (n2 < 0 ∨ N ≤ n2) ∨ (n3 < 0 ∨ O ≤ n3)) ∧
    validindPoint M N O p = validind M N O p.x p.y p.z := by
  refine ⟨validind_iff M N O n1 n2 n3, ?_, rfl⟩
  rw [← Bool.not_eq_true, validind_iff]
  omega

/-- C1, as stated, fails on 32-bit `int`: on the 2048 x 2048 x 2048 grid the
valid point `(0,0,1024)` has linear index `0`, which `ind2sub` decodes to
`(0,0,0)`. -/
theorem roundtrip_fails_on_2048_cube :
    validind 2048 2048 2048 0 0 1024 = true ∧ sub2ind32 2048 2048 0 0 1024 = 0 ∧
      ind2sub32 2048 2048 (sub2ind32 2048 2048 0 0 1024) = some (0, 0, 0) ∧
      ind2sub32 2048 2048 (sub2ind32 2048 2048 0 0 1024) ≠ some (0, 0, 1024) := by
  decide

/-- C1, amended: for a grid of size `M, N, O ≥ 1` with `M*N*O ≤ 2^31 - 1` and a
valid point `(x,y,z)`, `ind2sub(sub2ind(x,y,z))` returns `(x,y,z)`; hence a
valid point with the same linear index as `(x,y,z)` is `(x,y,z)` itself
(`sub2ind` is injective on valid points). -/
theorem ind2sub32_sub2ind32_roundtrip (M N O x y z : Int) (hM : 1 ≤ M) (hN : 1 ≤ N)
    (hO : 1 ≤ O) (hsize : M * N * O ≤ 2147483647) (hv : validind M N O x y z = true) :
    ind2sub32 M N (sub2ind32 M N x y z) = some (x, y, z) ∧
    ∀ a b c : Int, validind M N O a b c = true →
      sub2ind32 M N a b c = sub2ind32 M N x y z → (a, b, c) = (x, y, z) := by
  obtain ⟨_, hMN⟩ := plane_le_volume hM hN hO
  have key : ∀ a b c : Int, validind M N O a b c = true →
      ind2sub32 M N (sub2ind32 M N a b c) = some (a, b, c) := by
    intro a b c hw
    obtain ⟨h0, h1⟩ := sub2ind_range hw
    rw [sub2ind32_eq_of_bound hsize hw,
      ind2sub32_eq_of_bound (by omega) (by omega) (by omega) (by omega) (by omega)]
    exact decode_encode_valid hw
  refine ⟨key x y z hv, ?_⟩
  intro a b c hw he
  have h1 := key a b c hw
  rw [he, key x y z hv] at h1
  exact (Option.some.inj h1).symm

theorem ind2sub32_sub2ind32_roundtrip_witness :
    (3 : Int) * 4 * 5 ≤ 2147483647 ∧ validind 3 4 5 2 3 4 = true ∧
      ind2sub32 3 4 (sub2ind32 3 4 2 3 4) = some (2, 3, 4) :=
  ⟨by decide, by decide,
    (ind2sub32_sub2ind32_roundtrip 3 4 5 2 3 4 (by decide) (by decide) (by decide)
      (by decide) (by decide)).1⟩

/-- C2, as stated, fails on 32-bit `int`: with `M = N = 65536`, `O = 1` the
product `M*N` wraps to zero, so `ind2sub(5)` divides by zero and returns no
triple, although `0 ≤ 5 < M*N*O`. -/
theorem ind2sub32_no_result_on_65536_square :
    (0 : Int) ≤ 5 ∧ (5 : Int) < 65536 * 65536 * 1 ∧ wrap32 (65536 * 65536) = 0 ∧
      ind2sub32 65536 65536 5 = none := by
  decide

/-- C2, amended: for a grid of size `M, N, O ≥ 1` with `M*N*O ≤ 2^31 - 1` and an
index `0 ≤ n < M*N*O`, `ind2sub(n)` returns a triple and `sub2ind` of that
triple is `n`. -/
theorem sub2ind32_ind2sub32_roundtrip (M N O n : Int) (hM : 1 ≤ M) (hN : 1 ≤ N)
    (hO : 1 ≤ O) (hsize : M * N * O ≤ 2147483647) (h0 : 0 ≤ n) (hn : n < M * N * O) :
    ∃ x y z, ind2sub32 M N n = some (x, y, z) ∧ sub2ind32 M N x y z = n := by
  obtain ⟨_, hMN⟩ := plane_le_volume hM hN hO
  have hM0 : 0 < M := by omega
  have hN0 : 0 < N := by omega
  refine ⟨_, _, _, (ind2sub32_eq_of_bound hM0 hN0 (by omega) (by omega) (by omega)).trans
    (ind2sub_eq hM0 hN0 n), ?_⟩
  rw [sub2ind32_eq_of_bound hsize ((triple_valid_iff O hM0 hN0 n).2 ⟨h0, hn⟩)]
  unfold sub2ind
  ring

theorem sub2ind32_ind2sub32_roundtrip_witness :
    (3 : Int) * 4 * 5 ≤ 2147483647 ∧ (0 : Int) ≤ 59 ∧ (59 : Int) < 3 * 4 * 5 ∧
      ∃ x y z, ind2sub32 3 4 59 = some (x, y, z) ∧ sub2ind32 3 4 x y z = 59 :=
  ⟨by decide, by decide, by decide,
    sub2ind32_ind2sub32_roundtrip 3 4 5 59 (by decide) (by decide) (by decide) (by decide)
      (by decide) (by decide)⟩

/-- C4, as stated, fails on 32-bit `int`: on the 2048 x 2048 x 2048 grid the
valid point `(0,0,512)` has linear index `-2^31`, which is not
`x + y*M + z*M*N = 2^31` and does not lie in `[0, M*N*O)`. -/
theorem sub2ind32_negative_on_2048_cube :
    validind 2048 2048 2048 0 0 512 = true ∧
      sub2ind32 2048 2048 0 0 512 = -2147483648 ∧
      sub2ind32 2048 2048 0 0 512 ≠ 0 + 0 * 2048 + 512 * 2048 * 2048 ∧
      ¬ (0 ≤ sub2ind32 2048 2048 0 0 512) := by
  decide

/-- C4, amended: for a grid of size `M, N, O ≥ 1` with `M*N*O ≤ 2^31 - 1`, the
linear index of a valid point `(x,y,z)` is `x + y*M + z*M*N` and lies in
`[0, M*N*O)`, and `sub2ind` is a bijection from the valid points onto
`[0, M*N*O)`. -/
theorem sub2ind32_bijection (M N O : Int) (hM : 1 ≤ M) (hN : 1 ≤ N) (hO : 1 ≤ O)
    (hsize : M * N * O ≤ 2147483647) :
    (∀ x y z : Int, validind M N O x y z = true →
      sub2ind32 M N x y z = x + y * M + z * M * N ∧
      0 ≤ sub2ind32 M N x y z ∧ sub2ind32 M N x y z < M * N * O) ∧
    Set.BijOn (sub2indPoint32 M N) {p : Point | validindPoint M N O p = true}
      (Set.Ico 0 (M * N * O)) := by
  obtain ⟨_, hMN⟩ := plane_le_volume hM hN hO
  have hM0 : 0 < M := by omega
  have hN0 : 0 < N := by omega
  have hpt : ∀ p : Point, validindPoint M N O p = true →
      sub2indPoint32 M N p = sub2ind M N p.x p.y p.z := by
    intro p hp
    exact sub2ind32_eq_of_bound hsize hp
  constructor
  · intro x y z hv
    rw [sub2ind32_eq_of_bound hsize hv]
    exact ⟨rfl, sub2ind_range hv⟩
  · refine ⟨?_, ?_, ?_⟩
    · intro p hp
      show sub2indPoint32 M N p ∈ Set.Ico 0 (M * N * O)
      rw [hpt p hp]
      exact sub2ind_range hp
    · intro p hp q hq he
      have h1 := decode_encode_valid (M := M) (N := N) (O := O) hp
      have h2 := decode_encode_valid (M := M) (N := N) (O := O) hq
      have he2 : sub2ind M N p.x p.y p.z = sub2ind M N q.x q.y q.z := by
        rw [← hpt p hp, ← hpt q hq]
        exact he
      rw [he2, h2] at h1
      have h3 := Option.some.inj h1
      cases p
      cases q
      simp only [Prod.mk.injEq] at h3
      obtain ⟨rfl, rfl, rfl⟩ := h3
      rfl
    · intro n hn
      have hval := (triple_valid_iff O hM0 hN0 n).2 ⟨hn.1, hn.2⟩
      refine ⟨⟨n - Int.tdiv (n - Int.tdiv n (M * N) * M * N) M * M
        - Int.tdiv n (M * N) * M * N,
        Int.tdiv (n - Int.tdiv n (M * N) * M * N) M, Int.tdiv n (M * N)⟩, hval, ?_⟩
      show sub2ind32 M N _ _ _ = n
      rw [sub2ind32_eq_of_bound hsize hval]
      unfold sub2ind
      ring

theorem sub2ind32_bijection_witness :
    (3 : Int) * 4 * 5 ≤ 2147483647 ∧ validind 3 4 5 2 3 4 = true ∧
      sub2ind32 3 4 2 3 4 = 2 + 3 * 3 + 4 * 3 * 4 ∧
      0 ≤ sub2ind32 3 4 2 3 4 ∧ sub2ind32 3 4 2 3 4 < 3 * 4 * 5 :=
  ⟨by decide, by decide,
    (sub2ind32_bijection 3 4 5 (by decide) (by decide) (by decide) (by decide)).1 2 3 4
      (by decide)⟩

/-- C8, as stated, fails on 32-bit `int`: on the 2048 x 2048 x 2048 grid the
valid point `(0,0,0)` is lexicographically below the valid point `(0,0,512)`
(its `z` is smaller), yet its linear index `0` is not below the linear index
`-2^31` of `(0,0,512)`. -/
theorem sub2ind32_order_reversed_on_2048_cube :
    validindPoint 2048 2048 2048 ⟨0, 0, 0⟩ = true ∧
      validindPoint 2048 2048 2048 ⟨0, 0, 512⟩ = true ∧
      (⟨0, 0, 0⟩ : Point).z < (⟨0, 0, 512⟩ : Point).z ∧
      sub2indPoint32 2048 2048 ⟨0, 0, 0⟩ = 0 ∧
      sub2indPoint32 2048 2048 ⟨0, 0, 512⟩ = -2147483648 ∧
      ¬ (sub2indPoint32 2048 2048 ⟨0, 0, 0⟩ < sub2indPoint32 2048 2048 ⟨0, 0, 512⟩) := by
  decide

/-- C8, amended: the linear index is 0-based and column-major:
`sub2ind(0,0,0) = 0`, and for valid points `p`, `q` of a grid of size
`M, N, O ≥ 1` with `M*N*O ≤ 2^31 - 1`, `sub2ind(p) < sub2ind(q)` exactly when
`(p.z, p.y, p.x)` is lexicographically smaller than `(q.z, q.y, q.x)`. -/
theorem sub2ind32_column_major (M N O : Int) (hM : 1 ≤ M) (hN : 1 ≤ N) (hO : 1 ≤ O)
    (hsize : M * N * O ≤ 2147483647)
    (p q : Point) (hp : validindPoint M N O p = true) (hq : validindPoint M N O q = true) :
    sub2ind32 M N 0 0 0 = 0 ∧
    (sub2indPoint32 M N p < sub2indPoint32 M N q ↔
      p.z < q.z ∨ (p.z = q.z ∧ (p.y < q.y ∨ (p.y = q.y ∧ p.x < q.x)))) := by
  constructor
  · have hz : validind M N O 0 0 0 = true :=
      (validind_iff M N O 0 0 0).2 ⟨⟨by omega, by omega⟩, ⟨by omega, by omega⟩,
        ⟨by omega, by omega⟩⟩
    rw [sub2ind32_eq_of_bound hsize hz]
    simp [sub2ind]
  · obtain ⟨⟨hpx0, hpx⟩, ⟨hpy0, hpy⟩, _⟩ := (validind_iff M N O p.x p.y p.z).1 hp
    obtain ⟨⟨hqx0, hqx⟩, ⟨hqy0, hqy⟩, _⟩ := (validind_iff M N O q.x q.y q.z).1 hq
    have ep : sub2indPoint32 M N p = p.x + (p.y + p.z * N) * M := by
      show sub2ind32 M N p.x p.y p.z = _
      rw [sub2ind32_eq_of_bound hsize hp]
      unfold sub2ind
      ring
    have eq : sub2indPoint32 M N q = q.x + (q.y + q.z * N) * M := by
      show sub2ind32 M N q.x q.y q.z = _
      rw [sub2ind32_eq_of_bound hsize hq]
      unfold sub2ind
      ring
    rw [ep, eq, digit_lt_iff hpx0 hpx hqx0 hqx, digit_lt_iff hpy0 hpy hqy0 hqy,
      digit_eq_iff hpy0 hpy hqy0 hqy]
    tauto

theorem sub2ind32_column_major_witness :
    (3 : Int) * 4 * 5 ≤ 2147483647 ∧ validindPoint 3 4 5 ⟨2, 3, 0⟩ = true ∧
    validindPoint 3 4 5 ⟨0, 0, 1⟩ = true ∧ sub2ind32 3 4 0 0 0 = 0 ∧
    (sub2indPoint32 3 4 ⟨2, 3, 0⟩ < sub2indPoint32 3 4 ⟨0, 0, 1⟩ ↔
      (0 : Int) < 1 ∨ ((0 : Int) = 1 ∧ ((3 : Int) < 0 ∨ ((3 : Int) = 0 ∧ (2 : Int) < 0)))) :=
  ⟨by decide, by decide, by decide,
    sub2ind32_column_major 3 4 5 (by decide) (by decide) (by decide) (by decide)
      ⟨2, 3, 0⟩ ⟨0, 0, 1⟩ (by decide) (by decide)⟩

/-- C9, as stated, fails on 32-bit `int`: with `M = N = 46341`, `O = 1` the
index `n = 2147479015` satisfies `0 ≤ n < M*N*O`, yet `ind2sub(n)` returns
`(0,0,-1)`, which does not satisfy `validind`. -/
theorem ind2sub32_invalid_on_46341_square :
    (0 : Int) ≤ 2147479015 ∧ (2147479015 : Int) < 46341 * 46341 * 1 ∧
      ind2sub32 46341 46341 2147479015 = some (0, 0, -1) ∧
      make_point32 46341 46341 2147479015 = some ⟨0, 0, -1⟩ ∧
      validind 46341 46341 1 0 0 (-1) = false := by
  decide

/-- C9, amended: for a grid of size `M, N, O ≥ 1` with `M*N*O ≤ 2^31 - 1` and
any `int` `n`, that is `-2^31 ≤ n ≤ 2^31 - 1` (negative or beyond the grid
included; the divisions truncate toward zero), `ind2sub(n)` returns a triple,
`make_point(n)` returns the point with the same three coordinates, and the
triple satisfies `validind` exactly when `0 ≤ n < M*N*O`. -/
theorem ind2sub32_valid_exactly_in_range (M N O n : Int) (hM : 1 ≤ M) (hN : 1 ≤ N)
    (hO : 1 ≤ O) (hsize : M * N * O ≤ 2147483647)
    (hlo : -2147483648 ≤ n) (hhi : n ≤ 2147483647) :
    ∃ x y z, ind2sub32 M N n = some (x, y, z) ∧ make_point32 M N n = some ⟨x, y, z⟩ ∧
      (validind M N O x y z = true ↔ 0 ≤ n ∧ n < M * N * O) := by
  obtain ⟨_, hMN⟩ := plane_le_volume hM hN hO
  have hM0 : 0 < M := by omega
  have hN0 : 0 < N := by omega
  have h1 := (ind2sub32_eq_of_bound hM0 hN0 (by omega) hlo hhi).trans (ind2sub_eq hM0 hN0 n)
  refine ⟨_, _, _, h1, ?_, triple_valid_iff O hM0 hN0 n⟩
  rw [make_point32_eq, h1]
  rfl

theorem ind2sub32_valid_exactly_in_range_witness :
    (3 : Int) * 4 * 5 ≤ 2147483647 ∧ (-2147483648 : Int) ≤ -13 ∧ (-13 : Int) ≤ 2147483647 ∧
    ∃ x y z, ind2sub32 3 4 (-13) = some (x, y, z) ∧
      make_point32 3 4 (-13) = some ⟨x, y, z⟩ ∧
      (validind 3 4 5 x y z = true ↔ (0 : Int) ≤ -13 ∧ (-13 : Int) < 3 * 4 * 5) :=
  ⟨by decide, by decide, by decide,
    ind2sub32_valid_exactly_in_range 3 4 5 (-13) (by decide) (by decide) (by decide)
      (by decide) (by decide) (by decide)⟩

/-- C10: for a grid of size `M, N, O ≥ 1` with `M*N*O ≤ 2^31 - 1`, no
intermediate value of `sub2ind` on a valid point, or of `ind2sub` on an index
in `[0, M*N*O)`, leaves the signed 32-bit range: the step-by-step range-checked
evaluation succeeds with the result computed over the unbounded integers, the
evaluation with 32-bit wrap-around gives that same result, and the divisors
`M*N` and `M` are not zero. -/
theorem int32_no_overflow (M N O : Int) (hM : 1 ≤ M) (hN : 1 ≤ N) (hO : 1 ≤ O)
    (hsize : M * N * O ≤ 2147483647) :
    (∀ x y z : Int, validind M N O x y z = true →
      sub2indChecked M N x y z = some (sub2ind M N x y z) ∧
      sub2ind32 M N x y z = sub2ind M N x y z) ∧
    (∀ n : Int, 0 ≤ n → n < M * N * O →
      M * N ≠ 0 ∧ M ≠ 0 ∧ wrap32 (M * N) = M * N ∧ (ind2sub M N n).isSome = true ∧
      ind2subChecked M N n = ind2sub M N n ∧ ind2sub32 M N n = ind2sub M N n) := by
  have hM0 : 0 < M := by omega
  have hN0 : 0 < N := by omega
  have hMN : 0 < M * N := Int.mul_pos hM0 hN0
  have hMNO : M * N * 1 ≤ M * N * O := Int.mul_le_mul_of_nonneg_left hO (by omega)
  have eMN : M * N * 1 = M * N := by ring
  constructor
  · intro x y z hv
    obtain ⟨⟨a0, a1⟩, ⟨b0, b1⟩, ⟨c0, c1⟩, ⟨d0, d1⟩, ⟨e0, e1⟩⟩ := sub2ind_steps hv
    constructor
    · simp only [sub2indChecked, sub2ind, Option.bind_eq_bind, Option.some_bind,
        checked32_eq a0 (by omega), checked32_eq b0 (by omega), checked32_eq c0 (by omega),
        checked32_eq d0 (by omega), checked32_eq e0 (by omega)]
    · simp only [sub2ind32, sub2ind, wrap32_eq a0 (by omega), wrap32_eq b0 (by omega),
        wrap32_eq c0 (by omega), wrap32_eq d0 (by omega), wrap32_eq e0 (by omega)]
  · intro n h0 hn
    obtain ⟨⟨z0, z1⟩, ⟨a0, a1⟩, ⟨b0, b1⟩, ⟨y0, y1⟩, ⟨c0, c1⟩⟩ := ind2sub_steps hM0 hN0 h0
    have hne : M * N ≠ 0 := Int.ne_of_gt hMN
    have hMne : M ≠ 0 := Int.ne_of_gt hM0
    have wMN : wrap32 (M * N) = M * N := wrap32_eq (by omega) (by omega)
    refine ⟨hne, hMne, wMN, ?_, ?_, ?_⟩
    · rw [ind2sub_eq hM0 hN0]
      rfl
    · rw [ind2sub_eq hM0 hN0]
      have r0 : 0 ≤ n - Int.tdiv n (M * N) * M * N := by omega
      have t0 : 0 ≤ n - Int.tdiv (n - Int.tdiv n (M * N) * M * N) M * M := by omega
      have x0 : 0 ≤ n - Int.tdiv (n - Int.tdiv n (M * N) * M * N) M * M
          - Int.tdiv n (M * N) * M * N := by omega
      simp only [ind2subChecked, Option.bind_eq_bind, Option.some_bind,
        checked32_eq (Int.le_of_lt hMN) (by omega), if_neg hne, if_neg hMne,
        checked32_eq z0 (by omega), checked32_eq a0 (by omega), checked32_eq b0 (by omega),
        checked32_eq r0 (by omega), checked32_eq y0 (by omega), checked32_eq c0 (by omega),
        checked32_eq t0 (by omega), checked32_eq x0 (by omega)]
    · rw [ind2sub_eq hM0 hN0]
      have r0 : 0 ≤ n - Int.tdiv n (M * N) * M * N := by omega
      have t0 : 0 ≤ n - Int.tdiv (n - Int.tdiv n (M * N) * M * N) M * M := by omega
      have x0 : 0 ≤ n - Int.tdiv (n - Int.tdiv n (M * N) * M * N) M * M
          - Int.tdiv n (M * N) * M * N := by omega
      simp only [ind2sub32, wMN, if_neg hne, if_neg hMne,
        wrap32_eq z0 (by omega), wrap32_eq a0 (by omega), wrap32_eq b0 (by omega),
        wrap32_eq r0 (by omega), wrap32_eq y0 (by omega), wrap32_eq c0 (by omega),
        wrap32_eq t0 (by omega), wrap32_eq x0 (by omega)]

theorem int32_no_overflow_witness :
    (46340 : Int) * 46340 * 1 ≤ 2147483647 ∧ validind 46340 46340 1 46339 46339 0 = true ∧
      sub2indChecked 46340 46340 46339 46339 0 = some (sub2ind 46340 46340 46339 46339 0) ∧
      sub2ind32 46340 46340 46339 46339 0 = sub2ind 46340 46340 46339 46339 0 :=
  ⟨by decide, by decide,
    (int32_no_overflow 46340 46340 1 (by decide) (by decide) (by decide) (by decide)).1
      46339 46339 0 (by decide)⟩

/-! ## Settings: the properties -/

/-- C6: with no option supplied, `parse_settings` succeeds and returns the
documented defaults. -/
theorem parse_settings_defaults :
    parse_settings {} = Except.ok {
      verbose := false
      regularization_radius := 4.0
      length_penalty := 0.0
      curvature_penalty := 0.0
      torsion_penalty := 0.0
      curvature_power := 2.0
      torsion_power := 2.0
      use_a_star := false
      store_visit_time := false
      store_parents := false
      store_distances := false
      compute_all_distances := false
      function_improvement_tolerance := 1e-12
      argument_improvement_tolerance := 1e-12
      num_threads := -1
      maxiter := 1000
      descent_method := Descent_method.lbfgs
      descent_method_str := "lbfgs"
      data_type_str := "linear_interpolation"
      voxel_dimensions := #[1.0, 1.0, 1.0] } := by
  rfl

/-- C5: `parse_settings` fails exactly when a `descent_method` string is
supplied that is neither `"lbfgs"` nor `"nelder-mead"`, and its only error is
`"Unknown descent_method"`; with `"lbfgs"` supplied, or the option absent, it
returns `descent_method = lbfgs`; with `"nelder-mead"` supplied it returns
`descent_method = nelder_mead`. -/
theorem parse_settings_descent_method (params : MexParams) :
    ((∃ msg, parse_settings params = Except.error msg) ↔
      ∃ s, params.descent_method = some s ∧ s ≠ "lbfgs" ∧ s ≠ "nelder-mead") ∧
    (∀ msg, parse_settings params = Except.error msg → msg = "Unknown descent_method") ∧
    ((params.descent_method = none ∨ params.descent_method = some "lbfgs") →
      ∃ st, parse_settings params = Except.ok st ∧
        st.descent_method = Descent_method.lbfgs) ∧
    (params.descent_method = some "nelder-mead" →
      ∃ st, parse_settings params = Except.ok st ∧
        st.descent_method = Descent_method.nelder_mead) := by
  have key : (∃ st, parse_settings params = Except.ok st) ∨
      (parse_settings params = Except.error "Unknown descent_method" ∧
        ∃ s, params.descent_method = some s ∧ s ≠ "lbfgs" ∧ s ≠ "nelder-mead") := by
    rcases get_descent_method params with h | h | ⟨s, hs, h1, h2⟩
    · obtain ⟨st, hst, _⟩ := parse_settings_lbfgs params h
      exact Or.inl ⟨st, hst⟩
    · obtain ⟨st, hst, _⟩ := parse_settings_nelder_mead params h
      exact Or.inl ⟨st, hst⟩
    · refine Or.inr ⟨parse_settings_unknown params ?_ ?_, s, hs, h1, h2⟩
      · rw [hs]
        exact h1
      · rw [hs]
        exact h2
  refine ⟨⟨?_, ?_⟩, ?_, ?_, ?_⟩
  · rintro ⟨msg, hmsg⟩
    rcases key with ⟨st, hst⟩ | ⟨_, hs⟩
    · rw [hst] at hmsg
      cases hmsg
    · exact hs
  · rintro ⟨s, hs, h1, h2⟩
    refine ⟨_, parse_settings_unknown params ?_ ?_⟩
    · rw [hs]
      exact h1
    · rw [hs]
      exact h2
  · intro msg hmsg
    rcases key with ⟨st, hst⟩ | ⟨he, _⟩
    · rw [hst] at hmsg
      cases hmsg
    · rw [he] at hmsg
      exact (Except.error.inj hmsg).symm
  · intro h
    have hg : MexParams.get params.descent_method "lbfgs" = "lbfgs" := by
      rcases h with h | h
      · rw [h]
        rfl
      · rw [h]
        rfl
    obtain ⟨st, hst, hd, _⟩ := parse_settings_lbfgs params hg
    exact ⟨st, hst, hd⟩
  · intro h
    have hg : MexParams.get params.descent_method "lbfgs" = "nelder-mead" := by
      rw [h]
      rfl
    obtain ⟨st, hst, hd, _⟩ := parse_settings_nelder_mead params hg
    exact ⟨st, hst, hd⟩

/-- C7, as stated, fails: a caller that supplies two voxel dimensions gets
back settings whose `voxel_dimensions` has two elements. -/
theorem voxel_dimensions_kept_as_supplied :
    ∃ st, parse_settings { voxel_dimensions := some #[1.0, 2.0] } = Except.ok st ∧
      st.voxel_dimensions = #[1.0, 2.0] ∧ st.voxel_dimensions.size = 2 ∧
      st.voxel_dimensions.size ≠ 3 :=
  ⟨_, rfl, rfl, rfl, by decide⟩

/-- C7, amended: when `parse_settings` succeeds, the returned
`voxel_dimensions` is `{1.0, 1.0, 1.0}` if the caller supplied none or an empty
sequence, and otherwise is the supplied sequence unchanged; so it has exactly
3 elements exactly when the caller supplied none, an empty sequence, or a
sequence of 3 elements. -/
theorem parse_settings_voxel_dimensions (params : MexParams) (st : InstanceSettings)
    (h : parse_settings params = Except.ok st) :
    (params.voxel_dimensions = none → st.voxel_dimensions = #[1.0, 1.0, 1.0]) ∧
    (∀ v, params.voxel_dimensions = some v →
      st.voxel_dimensions = if v.size = 0 then #[1.0, 1.0, 1.0] else v) ∧
    (st.voxel_dimensions.size = 3 ↔
      params.voxel_dimensions = none ∨
      ∃ v, params.voxel_dimensions = some v ∧ (v.size = 0 ∨ v.size = 3)) := by
  have hv : st.voxel_dimensions =
      if (MexParams.getVector params.voxel_dimensions).isEmpty then #[1.0, 1.0, 1.0]
      else MexParams.getVector params.voxel_dimensions := by
    rcases get_descent_method params with hg | hg | ⟨s, hs, h1, h2⟩
    · obtain ⟨st2, hst, _, hvd⟩ := parse_settings_lbfgs params hg
      rw [hst] at h
      rw [← Except.ok.inj h]
      exact hvd
    · obtain ⟨st2, hst, _, hvd⟩ := parse_settings_nelder_mead params hg
      rw [hst] at h
      rw [← Except.ok.inj h]
      exact hvd
    · have he := parse_settings_unknown params (by rw [hs]; exact h1) (by rw [hs]; exact h2)
      rw [he] at h
      cases h
  cases hp : params.voxel_dimensions with
  | none =>
    rw [hp] at hv
    have e : st.voxel_dimensions = #[1.0, 1.0, 1.0] := hv
    refine ⟨fun _ => e, ?_, ?_⟩
    · intro v hvs
      cases hvs
    · rw [e]
      exact ⟨fun _ => Or.inl rfl, fun _ => rfl⟩
  | some w =>
    rw [hp] at hv
    have e : st.voxel_dimensions = if w.size = 0 then #[1.0, 1.0, 1.0] else w := by
      rw [hv]
      show (if w.isEmpty = true then _ else w) = _
      simp only [Array.isEmpty, decide_eq_true_eq]
    refine ⟨?_, ?_, ?_⟩
    · intro hn
      cases hn
    · intro v hvs
      obtain rfl := Option.some.inj hvs
      exact e
    · rw [e]
      constructor
      · intro hs
        refine Or.inr ⟨w, rfl, ?_⟩
        by_cases h0 : w.size = 0
        · exact Or.inl h0
        · rw [if_neg h0] at hs
          exact Or.inr hs
      · rintro (hn | ⟨v, hvs, hsz⟩)
        · cases hn
        · obtain rfl := Option.some.inj hvs
          rcases hsz with h0 | h3
          · rw [if_pos h0]
            rfl
          · have h0 : ¬ w.size = 0 := by omega
            rw [if_neg h0]
            exact h3

theorem parse_settings_voxel_dimensions_witness :
    parse_settings { voxel_dimensions := some #[0.5, 0.5, 2.0] } =
      Except.ok {
        verbose := false
        regularization_radius := 4.0
        length_penalty := 0.0
        curvature_penalty := 0.0
        torsion_penalty := 0.0
        curvature_power := 2.0
        torsion_power := 2.0
        use_a_star := false
        store_visit_time := false
        store_parents := false
        store_distances := false
        compute_all_distances := false
        function_improvement_tolerance := 1e-12
        argument_improvement_tolerance := 1e-12
        num_threads := -1
        maxiter := 1000
        descent_method := Descent_method.lbfgs
        descent_method_str := "lbfgs"
        data_type_str := "linear_interpolation"
        voxel_dimensions := #[0.5, 0.5, 2.0] } ∧
    (#[0.5, 0.5, 2.0] : Array Float) =
      if (#[0.5, 0.5, 2.0] : Array Float).size = 0 then #[1.0, 1.0, 1.0] else #[0.5, 0.5, 2.0] :=
  ⟨rfl, (parse_settings_voxel_dimensions { voxel_dimensions := some #[0.5, 0.5, 2.0] } _ rfl).2.1
    _ rfl⟩

end CurveSegmentation
